import Mathlib

/-!
Verification of the spektacular agent-runner core: the Event model and its
accessors, the question detector over `<!--QUESTION:...-->` markers, the
Claude CLI adapter's command assembly and line-decoding loop, and the runner
registry (`internal/runner/runner.go`, `internal/runner/registry.go`,
`internal/runner/claude/claude.go`).

Go's dynamic `any` values produced by `encoding/json` unmarshalling are
embedded as the inductive `JVal`; Go maps (`map[string]any`) become
association lists with unique keys (duplicate JSON keys overwrite, as in Go),
and Go type assertions `v, _ := x.(T)` become total matches defaulting to the
zero value.
-/

namespace Spektacular

/-- A decoded JSON value, i.e. what Go's `encoding/json` stores in an `any`.
Numbers keep their source lexeme: the runner never reads a numeric value, it
only type-asserts to string/bool/map/slice, and any number fails all of those
asserts, so the lexeme is a faithful representation for this code. -/
inductive JVal where
  | jnull
  | jbool (b : Bool)
  | jnum (lexeme : String)
  | jstr (s : String)
  | jarr (elems : List JVal)
  | jobj (fields : List (String × JVal))

/-- Whether the dynamic value is a JSON object (a Go `map[string]any`). -/
def JVal.isObj : JVal → Bool
  | .jobj _ => true
  | _ => false

/-- Whether the dynamic value is a JSON array (a Go `[]any`). -/
def JVal.isArr : JVal → Bool
  | .jarr _ => true
  | _ => false

/-- Whether the dynamic value is a JSON string (a Go `string`). -/
def JVal.isStr : JVal → Bool
  | .jstr _ => true
  | _ => false

/-- Map lookup on the association-list embedding of `map[string]any`.
Keys are unique by construction, so first match is the map entry. -/
def lookupJ (fields : List (String × JVal)) (key : String) : Option JVal :=
  match fields with
  | [] => none
  | (k, v) :: rest => if k = key then some v else lookupJ rest key

/-- Go `v, _ := x.(map[string]any)` followed by use of the possibly-nil map:
a failed assertion yields the nil map, which looks up and ranges as empty. -/
def asObj : Option JVal → List (String × JVal)
  | some (.jobj fs) => fs
  | _ => []

/-- Go `v, _ := x.([]any)`: a failed assertion yields the nil slice, which
ranges as empty. -/
def asArr : Option JVal → List JVal
  | some (.jarr xs) => xs
  | _ => []

/-- `Event` from `internal/runner/runner.go`: one parsed line of agent
output. `Type` is the raw `type` field, `Data` the full decoded object. -/
structure Event where
  Type' : String
  Data : List (String × JVal)

/-- `Event.SessionID` from `internal/runner/runner.go`:
`v, _ := e.Data["session_id"].(string); return v`. -/
def Event.SessionID (e : Event) : String :=
  match lookupJ e.Data "session_id" with
  | some (.jstr s) => s
  | _ => ""

/-- `Event.IsResult` from `internal/runner/runner.go`. -/
def Event.IsResult (e : Event) : Bool := e.Type' = "result"

/-- `Event.IsError` from `internal/runner/runner.go`: false unless a result
event, else `v, _ := e.Data["is_error"].(bool); return v`. -/
def Event.IsError (e : Event) : Bool :=
  if !e.IsResult then false
  else
    match lookupJ e.Data "is_error" with
    | some (.jbool b) => b
    | _ => false

/-- `Event.ResultText` from `internal/runner/runner.go`: empty unless a
result event, else `v, _ := e.Data["result"].(string); return v`. -/
def Event.ResultText (e : Event) : String :=
  if !e.IsResult then ""
  else
    match lookupJ e.Data "result" with
    | some (.jstr s) => s
    | _ => ""

/-- Go's interface comparison `block["key"] == "lit"` against a string
literal: true exactly when the entry exists, is a string, and equals it. -/
def strEntryIs (block : List (String × JVal)) (key lit : String) : Bool :=
  match lookupJ block key with
  | some (.jstr t) => t = lit
  | _ => false

/-- The accumulation loop inside `Event.TextContent`: for each content item,
`block, _ := item.(map[string]any)`; when `block["type"] == "text"` and
`block["text"]` asserts to a string, collect that string. -/
def textsLoop : List JVal → List String
  | [] => []
  | item :: rest =>
    let block := asObj (some item)
    if strEntryIs block "type" "text" then
      match lookupJ block "text" with
      | some (.jstr t) => t :: textsLoop rest
      | _ => textsLoop rest
    else textsLoop rest

/-- `Event.TextContent` from `internal/runner/runner.go`: empty for
non-assistant events; otherwise the collected `text` blocks of
`message.content`, joined by `strings.Join(texts, "\n")`. -/
def Event.TextContent (e : Event) : String :=
  if e.Type' ≠ "assistant" then ""
  else
    let msg := asObj (lookupJ e.Data "message")
    let content := asArr (lookupJ msg "content")
    String.intercalate "\n" (textsLoop content)

/-- The accumulation loop inside `Event.ToolUses`: collect every content item
that is a map whose `type` entry equals `"tool_use"`, keeping the whole map. -/
def toolsLoop : List JVal → List (List (String × JVal))
  | [] => []
  | item :: rest =>
    let block := asObj (some item)
    if strEntryIs block "type" "tool_use" then
      block :: toolsLoop rest
    else toolsLoop rest

/-- `Event.ToolUses` from `internal/runner/runner.go`: nil for non-assistant
events, else every `tool_use` block of `message.content`. -/
def Event.ToolUses (e : Event) : List (List (String × JVal)) :=
  if e.Type' ≠ "assistant" then []
  else
    let msg := asObj (lookupJ e.Data "message")
    let content := asArr (lookupJ msg "content")
    toolsLoop content

/-- `Question` from `internal/runner/runner.go`: question text, header label,
and the raw option maps. The struct has exactly these three fields; a
`freeText` key in the marker JSON has no corresponding field. -/
structure Question where
  Question : String
  Header : String
  Options : List (List (String × JVal))

/-- `AgentConfig` from `internal/config/config.go` (the fields the runner
reads). -/
structure AgentConfig where
  Command : String
  Args : List String
  AllowedTools : List String
  DangerouslySkipPermissions : Bool

/-- `Config` from `internal/config/config.go`, restricted to the agent
section consumed by the runner (the debug section only drives log-file I/O). -/
structure Config where
  Agent : AgentConfig

/-- `RunOptions` from `internal/runner/runner.go`. -/
structure RunOptions where
  Prompt : String
  SystemPrompt : String
  Config : Config
  SessionID : String
  CWD : String
  Command : String

/-! ### Question marker scanning

`internal/runner/runner.go` declares
`questionPattern = regexp.MustCompile("<!--QUESTION:([\\s\\S]*?)-->")` and
`detectQuestions` collects the capture groups of
`questionPattern.FindAllStringSubmatch(text, -1)`. `scanQ` implements that
matching discipline as a structural character scan: find the leftmost
occurrence of the opening token, take the shortest span up to the next
closing token (the lazy `*?`), emit the span, and resume right after the
closing token (matches never overlap). An opening token never followed by a
closing token matches nothing, and then nothing later can match either,
since any later match would need a closing token that would already have
ended the earlier attempt. -/

def questionOpen : List Char := ['<', '!', '-', '-', 'Q', 'U', 'E', 'S', 'T', 'I', 'O', 'N', ':']

def questionClose : List Char := ['-', '-', '>']

lemma questionOpen_eq : questionOpen = "<!--QUESTION:".data := rfl

lemma questionClose_eq : questionClose = "-->".data := rfl

/-- Whether the first list is a prefix of the second (pattern argument is
scrutinised first, so the test reduces definitionally whenever the pattern
is concrete). -/
def charsPrefix : List Char → List Char → Bool
  | [], _ => true
  | _ :: _, [] => false
  | p :: ps, c :: cs => p == c && charsPrefix ps cs

lemma charsPrefix_iff (p l : List Char) : charsPrefix p l = true ↔ p <+: l := by
  induction p generalizing l with
  | nil => simp [charsPrefix]
  | cons a ps ih =>
    cases l with
    | nil => simp [charsPrefix]
    | cons c cs => simp [charsPrefix, ih, List.cons_prefix_cons, beq_iff_eq]

/-- Scanner mode: outside any marker; consuming the remainder of a matched
opening token; inside a marker body (accumulated in reverse); or consuming
the remainder of a matched closing token. -/
inductive ScanMode where
  | out
  | skipOpen (k : Nat)
  | body (acc : List Char)
  | skipClose (k : Nat)

/-- The marker scan; one character per step, structural on the input. -/
def scanQ : ScanMode → List Char → List (List Char)
  | _, [] => []
  | .out, c :: cs =>
    if charsPrefix questionOpen (c :: cs) then scanQ (.skipOpen 12) cs
    else scanQ .out cs
  | .skipOpen k, _ :: cs =>
    if k ≤ 1 then scanQ (.body []) cs else scanQ (.skipOpen (k - 1)) cs
  | .body acc, c :: cs =>
    if charsPrefix questionClose (c :: cs) then
      acc.reverse :: scanQ (.skipClose 2) cs
    else scanQ (.body (c :: acc)) cs
  | .skipClose k, _ :: cs =>
    if k ≤ 1 then scanQ .out cs else scanQ (.skipClose (k - 1)) cs

/-! ### JSON decoding

Each marker body is handed to `encoding/json` (`json.Unmarshal`), as is
every output line of the Claude subprocess. The decoder below accepts the
RFC 8259 grammar `json.Unmarshal` accepts for a target of dynamic type,
with surrounding whitespace allowed and the whole input required to be
consumed. -/

/-- JSON whitespace. -/
def jsonWs (c : Char) : Bool := c == ' ' || c == '\t' || c == '\n' || c == '\r'

/-- Skip leading JSON whitespace. -/
def dropWs : List Char → List Char
  | [] => []
  | c :: cs => if jsonWs c then dropWs cs else c :: cs

/-- ASCII digit. -/
def digit (c : Char) : Bool := '0' ≤ c && c ≤ '9'

/-- Value of a hexadecimal digit. -/
def hexDigitVal (c : Char) : Option Nat :=
  if '0' ≤ c && c ≤ '9' then some (c.toNat - '0'.toNat)
  else if 'a' ≤ c && c ≤ 'f' then some (10 + c.toNat - 'a'.toNat)
  else if 'A' ≤ c && c ≤ 'F' then some (10 + c.toNat - 'A'.toNat)
  else none

/-- The character named by a single-character escape. -/
def escapeOf (c : Char) : Option Char :=
  match c with
  | '"' => some '"'
  | '\\' => some '\\'
  | '/' => some '/'
  | 'b' => some (Char.ofNat 8)
  | 'f' => some (Char.ofNat 12)
  | 'n' => some '\n'
  | 'r' => some '\r'
  | 't' => some '\t'
  | _ => none

/-- String body after the opening quote: decoded characters plus the
remainder after the closing quote. -/
def lexString : List Char → Option (List Char × List Char)
  | [] => none
  | '"' :: rest => some ([], rest)
  | '\\' :: 'u' :: h1 :: h2 :: h3 :: h4 :: rest =>
    match hexDigitVal h1, hexDigitVal h2, hexDigitVal h3, hexDigitVal h4 with
    | some a, some b, some c, some d =>
      match lexString rest with
      | some (s, r) => some (Char.ofNat (((a * 16 + b) * 16 + c) * 16 + d) :: s, r)
      | none => none
    | _, _, _, _ => none
  | '\\' :: e :: rest =>
    match escapeOf e with
    | some ch =>
      match lexString rest with
      | some (s, r) => some (ch :: s, r)
      | none => none
    | none => none
  | c :: rest =>
    match lexString rest with
    | some (s, r) => some (c :: s, r)
    | none => none

/-- Longest digit run at the front. -/
def spanDigits : List Char → List Char × List Char
  | [] => ([], [])
  | c :: cs =>
    if digit c then
      let (d, r) := spanDigits cs
      (c :: d, r)
    else ([], c :: cs)

/-- A JSON number lexeme, `-? int frac? exp?`. An ill-formed continuation
(`1.` or `1e`) is left in the remainder, where the surrounding grammar can
never accept it, so exactly the RFC-valid documents still decode. -/
def lexNumber (cs : List Char) : Option (List Char × List Char) :=
  let (minus, cs1) : List Char × List Char :=
    match cs with
    | '-' :: r => (['-'], r)
    | _ => ([], cs)
  let intPart : Option (List Char × List Char) :=
    match cs1 with
    | '0' :: r => some (['0'], r)
    | c :: r => if digit c then (fun (d, r') => some (c :: d, r')) (spanDigits r) else none
    | [] => none
  match intPart with
  | none => none
  | some (ip, cs2) =>
    let (fp, cs3) : List Char × List Char :=
      match cs2 with
      | '.' :: r =>
        match spanDigits r with
        | (d :: ds, r') => ('.' :: d :: ds, r')
        | ([], _) => ([], cs2)
      | _ => ([], cs2)
    let (ep, cs4) : List Char × List Char :=
      match cs3 with
      | e :: r =>
        if e == 'e' || e == 'E' then
          match r with
          | s :: r' =>
            if s == '+' || s == '-' then
              match spanDigits r' with
              | (d :: ds, r'') => (e :: s :: d :: ds, r'')
              | ([], _) => ([], cs3)
            else
              match spanDigits r with
              | (d :: ds, r'') => (e :: d :: ds, r'')
              | ([], _) => ([], cs3)
          | [] => ([], cs3)
        else ([], cs3)
      | [] => ([], cs3)
    some (minus ++ ip ++ fp ++ ep, cs4)

/-- Go map assignment `m[k] = v` on the association-list embedding: replace
the entry in place or append a fresh one. -/
def mapSet (fields : List (String × JVal)) (key : String) (v : JVal) :
    List (String × JVal) :=
  match fields with
  | [] => [(key, v)]
  | (k, w) :: rest => if k = key then (k, v) :: rest else (k, w) :: mapSet rest key v

mutual

/-- JSON value parser. `fuel` only forces termination; callers pass more
than enough for the input length. -/
def jsonVal (fuel : Nat) (cs : List Char) : Option (JVal × List Char) :=
  match fuel with
  | 0 => none
  | fuel + 1 =>
    match dropWs cs with
    | 'n' :: 'u' :: 'l' :: 'l' :: r => some (.jnull, r)
    | 't' :: 'r' :: 'u' :: 'e' :: r => some (.jbool true, r)
    | 'f' :: 'a' :: 'l' :: 's' :: 'e' :: r => some (.jbool false, r)
    | '"' :: r =>
      match lexString r with
      | some (s, r') => some (.jstr (String.mk s), r')
      | none => none
    | '[' :: r =>
      match dropWs r with
      | ']' :: r' => some (.jarr [], r')
      | r1 => jsonElems fuel r1 []
    | '\x7b' :: r =>
      match dropWs r with
      | '\x7d' :: r' => some (.jobj [], r')
      | r1 => jsonFields fuel r1 []
    | c :: r =>
      if c == '-' || digit c then
        match lexNumber (c :: r) with
        | some (lx, r') => some (.jnum (String.mk lx), r')
        | none => none
      else none
    | [] => none

/-- Array elements after `[` (non-empty case), accumulating in reverse. -/
def jsonElems (fuel : Nat) (cs : List Char) (acc : List JVal) :
    Option (JVal × List Char) :=
  match fuel with
  | 0 => none
  | fuel + 1 =>
    match jsonVal fuel cs with
    | none => none
    | some (v, r) =>
      match dropWs r with
      | ',' :: r' => jsonElems fuel r' (v :: acc)
      | ']' :: r' => some (.jarr (v :: acc).reverse, r')
      | _ => none

/-- Object members after the opening brace (non-empty case). Duplicate keys
overwrite earlier entries, as Go map assignment does during unmarshalling. -/
def jsonFields (fuel : Nat) (cs : List Char) (acc : List (String × JVal)) :
    Option (JVal × List Char) :=
  match fuel with
  | 0 => none
  | fuel + 1 =>
    match dropWs cs with
    | '"' :: r =>
      match lexString r with
      | none => none
      | some (k, r1) =>
        match dropWs r1 with
        | ':' :: r2 =>
          match jsonVal fuel r2 with
          | none => none
          | some (v, r3) =>
            match dropWs r3 with
            | ',' :: r4 => jsonFields fuel r4 (mapSet acc (String.mk k) v)
            | '\x7d' :: r4 => some (.jobj (mapSet acc (String.mk k) v), r4)
            | _ => none
        | _ => none
    | _ => none

end

/-- `json.Unmarshal(bs, &v)` with dynamic target: one JSON value with
surrounding whitespace, and the whole input must be consumed. -/
def decodeJson (cs : List Char) : Option JVal :=
  match jsonVal (2 * cs.length + 2) cs with
  | some (v, rest) => if dropWs rest = [] then some v else none
  | none => none

/-! ### Question detection -/

/-- Modelled from the spec: the body of `detectQuestions` is absent from the
repository (the plan listing elides it as unchanged), so the per-marker
parse follows §4.2 of the specification: the enclosed span "is parsed as a
JSON object containing a `questions` array"; "for each array element
missing required fields, or when the enclosed span is not valid JSON, that
marker occurrence contributes zero Questions". The required fields are the
`question` text and the `header` label (the Question attributes of §3);
`options`, when present, must be an array of option objects, and defaults
to empty. This function checks one array element. -/
def parseQuestionElem (v : JVal) : Option Question :=
  match v with
  | .jobj fields =>
    match lookupJ fields "question", lookupJ fields "header" with
    | some (.jstr q), some (.jstr h) =>
      match lookupJ fields "options" with
      | none => some ⟨q, h, []⟩
      | some (.jarr opts) =>
        match optionObjs opts with
        | some os => some ⟨q, h, os⟩
        | none => none
      | some _ => none
    | _, _ => none
  | _ => none
where
  /-- Each option entry must itself be an object (`[]map[string]any`). -/
  optionObjs : List JVal → Option (List (List (String × JVal)))
    | [] => some []
    | .jobj f :: rest =>
      match optionObjs rest with
      | some os => some (f :: os)
      | none => none
    | _ :: _ => none

/-- All elements of the `questions` array, or `none` if any is malformed. -/
def questionElems : List JVal → Option (List Question)
  | [] => some []
  | v :: rest =>
    match parseQuestionElem v, questionElems rest with
    | some q, some qs => some (q :: qs)
    | _, _ => none

/-- Modelled from the spec (see `parseQuestionElem`): the questions of one
marker occurrence; zero on any parse failure for that occurrence. -/
def parseMarker (body : List Char) : List Question :=
  match decodeJson body with
  | some (.jobj fields) =>
    match lookupJ fields "questions" with
    | some (.jarr elems) =>
      match questionElems elems with
      | some qs => qs
      | none => []
    | _ => []
  | _ => []

/-- `detectQuestions` from `internal/runner/runner.go`: scan the text with
`questionPattern` and concatenate each occurrence's questions in order of
appearance. -/
def detectQuestions (text : String) : List Question :=
  ((scanQ .out text.data).map parseMarker).flatten

/-! ### Scanner lemmas

The decomposition theorems below characterise the marker scan on any text
written as alternating marker-free segments and complete markers. The
boundary reasoning relies on the two tokens having no nonempty proper
border, so a token occurrence can never straddle a segment boundary. -/

/-- `p` has no nonempty proper border: no proper nonempty suffix of `p` is
also a prefix of `p`. -/
def borderFree (p : List Char) : Prop :=
  ∀ k, k < p.length → 0 < k → p.drop k ≠ p.take (p.length - k)

lemma questionOpen_borderFree : borderFree questionOpen := by
  unfold borderFree questionOpen
  decide

lemma questionClose_borderFree : borderFree questionClose := by
  unfold borderFree questionClose
  decide

/-- A border-free token that does not occur inside `s` cannot match at any
nonempty suffix of `s` continued by a text that is empty or itself starts
with the token. -/
lemma no_token_at_suffix (p s r : List Char) (hbf : borderFree p)
    (hni : ¬ p <:+: s) (hr : r = [] ∨ ∃ t, r = p ++ t)
    (s₂ : List Char) (hsuf : s₂ <:+ s) (hne : s₂ ≠ []) :
    charsPrefix p (s₂ ++ r) = false := by
  rw [← Bool.not_eq_true, charsPrefix_iff]
  intro hpre'
  rcases hr with rfl | ⟨t, rfl⟩
  · rw [List.append_nil] at hpre'
    exact hni (hpre'.isInfix.trans hsuf.isInfix)
  · obtain ⟨u, hu⟩ := hpre'
    by_cases hk : p.length ≤ s₂.length
    · have htake : (s₂ ++ (p ++ t)).take p.length = s₂.take p.length :=
        List.take_append_of_le_length hk
      have hp : p = s₂.take p.length := by
        have h2 := congrArg (List.take p.length) hu
        rwa [List.take_left _ _, htake] at h2
      have hp2 : p <+: s₂ := by
        rw [hp]
        exact List.take_prefix _ _
      exact hni (hp2.isInfix.trans hsuf.isInfix)
    · push_neg at hk
      have hpos : 0 < s₂.length := List.length_pos.mpr hne
      have htake : (s₂ ++ (p ++ t)).take p.length
          = s₂ ++ (p ++ t).take (p.length - s₂.length) := by
        rw [List.take_append_eq_append_take, List.take_of_length_le (le_of_lt hk)]
      have htake2 : (p ++ t).take (p.length - s₂.length)
          = p.take (p.length - s₂.length) :=
        List.take_append_of_le_length (Nat.sub_le _ _)
      have hp : p = s₂ ++ p.take (p.length - s₂.length) := by
        have h2 := congrArg (List.take p.length) hu
        rwa [List.take_left _ _, htake, htake2] at h2
      have hdrop : p.drop s₂.length = p.take (p.length - s₂.length) := by
        conv_lhs => rw [hp]
        rw [List.drop_left _ _]
      exact hbf s₂.length hk hpos hdrop

/-- Outside mode, no opening-token match at the head: step over one
character. -/
lemma scanQ_out_cons_neg (c : Char) (cs : List Char)
    (h : charsPrefix questionOpen (c :: cs) = false) :
    scanQ .out (c :: cs) = scanQ .out cs := by
  rw [scanQ, h]
  rfl

/-- Body mode, no closing-token match at the head: accumulate one
character. -/
lemma scanQ_body_cons_neg (c : Char) (cs acc : List Char)
    (h : charsPrefix questionClose (c :: cs) = false) :
    scanQ (.body acc) (c :: cs) = scanQ (.body (c :: acc)) cs := by
  rw [scanQ, h]
  rfl

/-- Opening-token hit: consume it and switch to body mode. -/
lemma scanQ_out_open (x : List Char) :
    scanQ .out (questionOpen ++ x) = scanQ (.body []) x := rfl

/-- Closing-token hit: emit the accumulated body and return outside. -/
lemma scanQ_body_close (acc x : List Char) :
    scanQ (.body acc) (questionClose ++ x) = acc.reverse :: scanQ .out x := rfl

/-- Scanning in the outside mode walks over a block in which the opening
token cannot match. -/
lemma scanQ_out_append (s r : List Char)
    (h : ∀ s₂, s₂ <:+ s → s₂ ≠ [] → charsPrefix questionOpen (s₂ ++ r) = false) :
    scanQ .out (s ++ r) = scanQ .out r := by
  induction s with
  | nil => rfl
  | cons c s' ih =>
    rw [List.cons_append,
      scanQ_out_cons_neg c (s' ++ r) (h (c :: s') List.suffix_rfl (by simp))]
    exact ih (fun s₂ hs hne => h s₂ (hs.trans (List.suffix_cons c s')) hne)

/-- Scanning in the body mode accumulates a block in which the closing
token cannot match. -/
lemma scanQ_body_append (b r : List Char)
    (h : ∀ b₂, b₂ <:+ b → b₂ ≠ [] → charsPrefix questionClose (b₂ ++ r) = false) :
    ∀ acc, scanQ (.body acc) (b ++ r) = scanQ (.body (b.reverse ++ acc)) r := by
  induction b with
  | nil => intro acc; simp
  | cons c b' ih =>
    intro acc
    rw [List.cons_append,
      scanQ_body_cons_neg c (b' ++ r) acc (h (c :: b') List.suffix_rfl (by simp))]
    rw [ih (fun b₂ hb hne => h b₂ (hb.trans (List.suffix_cons c b')) hne) (c :: acc)]
    simp [List.reverse_cons, List.append_assoc]

/-- A text decomposed as alternating marker-free segments and complete
markers: `s₁ OPEN b₁ CLOSE s₂ OPEN b₂ CLOSE … tail`. -/
def markersText : List (List Char × List Char) → List Char → List Char
  | [], tail => tail
  | (s, b) :: ps, tail =>
    s ++ (questionOpen ++ (b ++ (questionClose ++ markersText ps tail)))

/-- The scan of a decomposed text yields exactly the marker bodies, in
order, provided no segment contains the opening token and no body contains
the closing token. -/
lemma scanQ_markersText (ps : List (List Char × List Char)) (tail : List Char)
    (hseg : ∀ pb ∈ ps, ¬ questionOpen <:+: pb.1)
    (hbody : ∀ pb ∈ ps, ¬ questionClose <:+: pb.2)
    (htail : ¬ questionOpen <:+: tail) :
    scanQ .out (markersText ps tail) = ps.map Prod.snd := by
  induction ps with
  | nil =>
    have h0 : scanQ .out (tail ++ []) = scanQ .out [] :=
      scanQ_out_append tail []
        (no_token_at_suffix questionOpen tail [] questionOpen_borderFree htail
          (Or.inl rfl))
    simpa using h0
  | cons pb ps ih =>
    obtain ⟨s, b⟩ := pb
    have hs : ¬ questionOpen <:+: s := hseg (s, b) (by simp)
    have hb : ¬ questionClose <:+: b := hbody (s, b) (by simp)
    simp only [markersText]
    rw [scanQ_out_append s _
      (no_token_at_suffix questionOpen s _ questionOpen_borderFree hs
        (Or.inr ⟨_, rfl⟩))]
    rw [scanQ_out_open]
    rw [scanQ_body_append b _
      (no_token_at_suffix questionClose b _ questionClose_borderFree hb
        (Or.inr ⟨_, rfl⟩)) []]
    rw [List.append_nil, scanQ_body_close, List.reverse_reverse]
    rw [List.map_cons]
    rw [ih (fun q hq => hseg q (by simp [hq])) (fun q hq => hbody q (by simp [hq]))]

/-- Flattening singleton lists recovers the underlying list. -/
lemma flatten_map_singleton {α : Type} (qs : List α) :
    (qs.map (fun q => [q])).flatten = qs := by
  induction qs with
  | nil => rfl
  | cons q qs ih => simp [ih]

/-- If some element of the `questions` array is malformed, the whole
element list parses to `none`. -/
lemma questionElems_none (elems : List JVal) (e : JVal) (he : e ∈ elems)
    (hpe : parseQuestionElem e = none) : questionElems elems = none := by
  induction elems with
  | nil => cases he
  | cons v rest ih =>
    rcases List.mem_cons.mp he with rfl | hmem
    · cases hqe : questionElems rest <;> simp [questionElems, hpe, hqe]
    · cases hpv : parseQuestionElem v <;> simp [questionElems, hpv, ih hmem]

/-- C1: `detectQuestions` terminates on every input (it is a total
function), and on any text decomposed as marker-free segments interleaved
with `n` well-formed, independent markers — no segment contains the opening
token, no body contains the closing token (markers may span multiple
lines), and each body parses to exactly one question — it returns exactly
those `n` questions, in the markers' left-to-right order of appearance.
With `ps = []` (zero well-formed markers) the result is empty. -/
theorem detectQuestions_wellFormed_markers
    (ps : List (List Char × List Char)) (tail : List Char) (qs : List Question)
    (hseg : ∀ pb ∈ ps, ¬ questionOpen <:+: pb.1)
    (hbody : ∀ pb ∈ ps, ¬ questionClose <:+: pb.2)
    (htail : ¬ questionOpen <:+: tail)
    (hq : ps.map (fun pb => parseMarker pb.2) = qs.map (fun q => [q])) :
    detectQuestions (String.mk (markersText ps tail)) = qs := by
  unfold detectQuestions
  have hdata : (String.mk (markersText ps tail)).data = markersText ps tail := rfl
  rw [hdata, scanQ_markersText ps tail hseg hbody htail, List.map_map]
  have hcomp : parseMarker ∘ Prod.snd = fun pb : List Char × List Char => parseMarker pb.2 := rfl
  rw [hcomp, hq, flatten_map_singleton]

def c1seg0 : List Char := "Plan: ".data

def c1body1 : List Char :=
  "\x7b\"questions\":[\x7b\"question\":\"Which DB?\",\"header\":\"Database\",\"options\":[\x7b\"label\":\"SQL\"\x7d,\x7b\"label\":\"NoSQL\"\x7d]\x7d]\x7d".data

def c1seg1 : List Char := " and then\n".data

def c1body2 : List Char :=
  "\x7b\"questions\":[\x7b\"question\":\"Name?\",\"header\":\"Endpoint\",\"options\":[]\x7d]\x7d".data

def c1tail : List Char := " thanks".data

set_option maxRecDepth 8192 in
/-- C1 witness: a concrete text with two well-formed markers yields exactly
their two questions, in order. -/
theorem detectQuestions_wellFormed_markers_witness :
    detectQuestions
        (String.mk (markersText [(c1seg0, c1body1), (c1seg1, c1body2)] c1tail))
      = [⟨"Which DB?", "Database", [[("label", .jstr "SQL")], [("label", .jstr "NoSQL")]]⟩,
         ⟨"Name?", "Endpoint", []⟩] :=
  detectQuestions_wellFormed_markers
    [(c1seg0, c1body1), (c1seg1, c1body2)] c1tail
    [⟨"Which DB?", "Database", [[("label", .jstr "SQL")], [("label", .jstr "NoSQL")]]⟩,
     ⟨"Name?", "Endpoint", []⟩]
    (by decide) (by decide) (by decide) rfl

/-- C4: on a text decomposed into segments and complete marker occurrences,
detection concatenates the per-occurrence results, so an occurrence whose
span is invalid JSON, or whose `questions` array has an element missing
required fields, contributes zero Questions — never a partially populated
one — while every other occurrence in the same text is still processed in
place. Detection never raises: every function involved is total. -/
theorem detectQuestions_malformed_markers
    (ps : List (List Char × List Char)) (tail : List Char)
    (hseg : ∀ pb ∈ ps, ¬ questionOpen <:+: pb.1)
    (hbody : ∀ pb ∈ ps, ¬ questionClose <:+: pb.2)
    (htail : ¬ questionOpen <:+: tail) :
    detectQuestions (String.mk (markersText ps tail))
        = (ps.map (fun pb => parseMarker pb.2)).flatten
    ∧ (∀ b, decodeJson b = none → parseMarker b = [])
    ∧ (∀ b fields elems, decodeJson b = some (.jobj fields) →
        lookupJ fields "questions" = some (.jarr elems) →
        (∃ e ∈ elems, parseQuestionElem e = none) →
        parseMarker b = []) := by
  refine ⟨?_, ?_, ?_⟩
  · unfold detectQuestions
    have hdata : (String.mk (markersText ps tail)).data = markersText ps tail := rfl
    rw [hdata, scanQ_markersText ps tail hseg hbody htail, List.map_map]
    rfl
  · intro b hb
    unfold parseMarker
    rw [hb]
  · intro b fields elems h1 h2 hex
    obtain ⟨e, he, hpe⟩ := hex
    simp only [parseMarker, h1, h2, questionElems_none elems e he hpe]

def c4seg0 : List Char := "first ".data

def c4badBody : List Char := "not-valid-json".data

def c4seg1 : List Char := " second ".data

def c4missingBody : List Char := "\x7b\"questions\":[\x7b\"header\":\"H\"\x7d]\x7d".data

def c4seg2 : List Char := " third ".data

def c4goodBody : List Char :=
  "\x7b\"questions\":[\x7b\"question\":\"Q?\",\"header\":\"H\",\"options\":[\x7b\"label\":\"X\"\x7d]\x7d]\x7d".data

def c4tail : List Char := " end".data

set_option maxRecDepth 8192 in
/-- C4 witness: in one text, an invalid-JSON occurrence and a
missing-required-field occurrence each contribute zero Questions, while the
well-formed occurrence after them is still processed. -/
theorem detectQuestions_malformed_markers_witness :
    detectQuestions
        (String.mk (markersText
          [(c4seg0, c4badBody), (c4seg1, c4missingBody), (c4seg2, c4goodBody)] c4tail))
      = [⟨"Q?", "H", [[("label", .jstr "X")]]⟩]
    ∧ parseMarker c4badBody = []
    ∧ parseMarker c4missingBody = [] := by
  have h := detectQuestions_malformed_markers
    [(c4seg0, c4badBody), (c4seg1, c4missingBody), (c4seg2, c4goodBody)] c4tail
    (by decide) (by decide) (by decide)
  refine ⟨?_, ?_, ?_⟩
  · rw [h.1]
    rfl
  · exact h.2.1 c4badBody rfl
  · exact h.2.2 c4missingBody
      [("questions", .jarr [.jobj [("header", .jstr "H")]])]
      [.jobj [("header", .jstr "H")]] rfl rfl
      ⟨.jobj [("header", .jstr "H")], List.mem_singleton_self _, rfl⟩

/-! ### Event accessor claims -/

/-- One content block's contribution to assistant text, stated as in the
specification: the `text` field of a block of type `"text"`, when present
as a string. -/
def textOfBlock (item : JVal) : Option String :=
  match item with
  | .jobj fs =>
    if strEntryIs fs "type" "text" then
      match lookupJ fs "text" with
      | some (.jstr t) => some t
      | _ => none
    else none
  | _ => none

/-- One content block's contribution to the tool list: the whole block map
when its type is `"tool_use"`. -/
def toolOfBlock (item : JVal) : Option (List (String × JVal)) :=
  match item with
  | .jobj fs => if strEntryIs fs "type" "tool_use" then some fs else none
  | _ => none

/-- The source's text accumulation loop agrees with the one-block
characterisation. -/
lemma textsLoop_eq (l : List JVal) : textsLoop l = l.filterMap textOfBlock := by
  induction l with
  | nil => rfl
  | cons item rest ih =>
    cases item with
    | jobj fs =>
      by_cases h : strEntryIs fs "type" "text" = true
      · cases hlt : lookupJ fs "text" with
        | none => simp [textsLoop, asObj, textOfBlock, h, hlt, ih]
        | some v => cases v <;> simp [textsLoop, asObj, textOfBlock, h, hlt, ih]
      · simp [textsLoop, asObj, textOfBlock, h, ih]
    | jnull => simp [textsLoop, asObj, textOfBlock, strEntryIs, lookupJ, ih]
    | jbool b => simp [textsLoop, asObj, textOfBlock, strEntryIs, lookupJ, ih]
    | jnum n => simp [textsLoop, asObj, textOfBlock, strEntryIs, lookupJ, ih]
    | jstr t => simp [textsLoop, asObj, textOfBlock, strEntryIs, lookupJ, ih]
    | jarr xs => simp [textsLoop, asObj, textOfBlock, strEntryIs, lookupJ, ih]

/-- The source's tool accumulation loop agrees with the one-block
characterisation. -/
lemma toolsLoop_eq (l : List JVal) : toolsLoop l = l.filterMap toolOfBlock := by
  induction l with
  | nil => rfl
  | cons item rest ih =>
    cases item with
    | jobj fs =>
      by_cases h : strEntryIs fs "type" "tool_use" = true
      · simp [toolsLoop, asObj, toolOfBlock, h, ih]
      · simp [toolsLoop, asObj, toolOfBlock, h, ih]
    | jnull => simp [toolsLoop, asObj, toolOfBlock, strEntryIs, lookupJ, ih]
    | jbool b => simp [toolsLoop, asObj, toolOfBlock, strEntryIs, lookupJ, ih]
    | jnum n => simp [toolsLoop, asObj, toolOfBlock, strEntryIs, lookupJ, ih]
    | jstr t => simp [toolsLoop, asObj, toolOfBlock, strEntryIs, lookupJ, ih]
    | jarr xs => simp [toolsLoop, asObj, toolOfBlock, strEntryIs, lookupJ, ih]

/-- The claim's reading of assistant text: the `text` fields of the
payload's `message.content` blocks of type `"text"`, taken in order of
appearance and joined with a newline separator. -/
def assistantTextSpec (e : Event) : String :=
  String.intercalate "\n"
    ((asArr (lookupJ (asObj (lookupJ e.Data "message")) "content")).filterMap textOfBlock)

/-- C2: `TextContent` is the empty string on every non-assistant event, and
on assistant events it equals the `text` fields of the payload's
`message.content` blocks of type `"text"`, in order of appearance, joined
with a newline separator. -/
theorem textContent_characterisation (e : Event) :
    (e.Type' ≠ "assistant" → e.TextContent = "")
    ∧ (e.Type' = "assistant" → e.TextContent = assistantTextSpec e) := by
  constructor
  · intro h
    unfold Event.TextContent
    rw [if_pos h]
  · intro h
    unfold Event.TextContent assistantTextSpec
    rw [if_neg (by simp [h])]
    simp only [textsLoop_eq]

def c2assistant : Event :=
  ⟨"assistant",
    [("message", .jobj
      [("content", .jarr
        [.jobj [("type", .jstr "text"), ("text", .jstr "hello")],
         .jobj [("type", .jstr "tool_use"), ("name", .jstr "Bash")],
         .jobj [("type", .jstr "text"), ("text", .jstr " world")]])])]⟩

def c2result : Event := ⟨"result", [("result", .jstr "done")]⟩

/-- C2 witness: the assistant event of the repository's test joins its two
text blocks with a newline; a result event yields the empty string. -/
theorem textContent_characterisation_witness :
    Event.TextContent c2assistant = "hello\n world"
    ∧ Event.TextContent c2result = "" := by
  constructor
  · rw [(textContent_characterisation c2assistant).2 rfl]
    rfl
  · exact (textContent_characterisation c2result).1 (by decide)

/-- C3: for every non-result event `ResultText` is `""` and `IsError` is
`false`; for every result event `ResultText` is the payload's `result`
string (empty when absent or not a string) and `IsError` is the payload's
`is_error` boolean (false when absent or not a boolean). Both accessors are
total: they are defined on every event kind and never fail. -/
theorem resultAccessors_characterisation (e : Event) :
    (e.Type' ≠ "result" → e.ResultText = "" ∧ e.IsError = false)
    ∧ (e.Type' = "result" →
        (e.ResultText = match lookupJ e.Data "result" with
          | some (.jstr s) => s
          | _ => "")
        ∧ (e.IsError = match lookupJ e.Data "is_error" with
          | some (.jbool b) => b
          | _ => false)) := by
  constructor
  · intro h
    have hr : e.IsResult = false := by simp [Event.IsResult, h]
    constructor
    · unfold Event.ResultText
      rw [hr]
      rfl
    · unfold Event.IsError
      rw [hr]
      rfl
  · intro h
    have hr : e.IsResult = true := by simp [Event.IsResult, h]
    constructor
    · unfold Event.ResultText
      rw [hr]
      rfl
    · unfold Event.IsError
      rw [hr]
      rfl

def c3nonresult : Event :=
  ⟨"assistant", [("result", .jstr "plan text"), ("is_error", .jbool true)]⟩

def c3result : Event :=
  ⟨"result", [("result", .jstr "plan text"), ("is_error", .jbool true)]⟩

/-- C3 witness: a non-result event with `result`/`is_error` entries still
reads as empty/false; the result event reads its payload fields. -/
theorem resultAccessors_characterisation_witness :
    (Event.ResultText c3nonresult = "" ∧ Event.IsError c3nonresult = false)
    ∧ Event.ResultText c3result = "plan text" ∧ Event.IsError c3result = true := by
  refine ⟨(resultAccessors_characterisation c3nonresult).1 (by decide), ?_, ?_⟩
  · rw [((resultAccessors_characterisation c3result).2 rfl).1]
    rfl
  · rw [((resultAccessors_characterisation c3result).2 rfl).2]
    rfl

/-- C10: the payload accessors are safe on every payload shape. In a total
shallow embedding they cannot panic by construction; this theorem states
the defaulting the claim describes: a missing or non-string `session_id`
yields `""`; a missing or non-map `message`, or a missing or non-sequence
`content`, yields empty text and no tool uses; and non-conforming content
entries (non-map blocks, or text blocks whose `text` field is missing or
not a string) are skipped by both accumulation loops rather than causing a
failure. -/
theorem accessors_safe (ty : String) (d : List (String × JVal)) :
    (lookupJ d "session_id" = none → Event.SessionID ⟨ty, d⟩ = "")
    ∧ (∀ v, lookupJ d "session_id" = some v → v.isStr = false →
        Event.SessionID ⟨ty, d⟩ = "")
    ∧ (lookupJ d "message" = none →
        Event.TextContent ⟨ty, d⟩ = "" ∧ Event.ToolUses ⟨ty, d⟩ = [])
    ∧ (∀ v, lookupJ d "message" = some v → v.isObj = false →
        Event.TextContent ⟨ty, d⟩ = "" ∧ Event.ToolUses ⟨ty, d⟩ = [])
    ∧ (∀ fs, lookupJ d "message" = some (.jobj fs) →
        (lookupJ fs "content" = none
          ∨ ∃ w, lookupJ fs "content" = some w ∧ w.isArr = false) →
        Event.TextContent ⟨ty, d⟩ = "" ∧ Event.ToolUses ⟨ty, d⟩ = [])
    ∧ (∀ l₁ v l₂, textOfBlock v = none →
        textsLoop (l₁ ++ v :: l₂) = textsLoop (l₁ ++ l₂))
    ∧ (∀ l₁ v l₂, toolOfBlock v = none →
        toolsLoop (l₁ ++ v :: l₂) = toolsLoop (l₁ ++ l₂)) := by
  refine ⟨?_, ?_, ?_, ?_, ?_, ?_, ?_⟩
  · intro h
    simp [Event.SessionID, h]
  · intro v hv hstr
    cases v <;> simp_all [Event.SessionID, JVal.isStr]
  · intro h
    constructor
    · unfold Event.TextContent
      split
      · rfl
      · rw [h]
        rfl
    · unfold Event.ToolUses
      split
      · rfl
      · rw [h]
        rfl
  · intro v hv hobj
    constructor
    · unfold Event.TextContent
      split
      · rfl
      · rw [hv]
        cases v
        case jobj fs => simp [JVal.isObj] at hobj
        all_goals rfl
    · unfold Event.ToolUses
      split
      · rfl
      · rw [hv]
        cases v
        case jobj fs => simp [JVal.isObj] at hobj
        all_goals rfl
  · intro fs hfs hcontent
    constructor
    · unfold Event.TextContent
      split
      · rfl
      · rw [hfs]
        show String.intercalate "\n" (textsLoop (asArr (lookupJ fs "content"))) = ""
        rcases hcontent with hnone | ⟨w, hw, harr⟩
        · rw [hnone]
          rfl
        · rw [hw]
          cases w
          case jarr xs => simp [JVal.isArr] at harr
          all_goals rfl
    · unfold Event.ToolUses
      split
      · rfl
      · rw [hfs]
        show toolsLoop (asArr (lookupJ fs "content")) = []
        rcases hcontent with hnone | ⟨w, hw, harr⟩
        · rw [hnone]
          rfl
        · rw [hw]
          cases w
          case jarr xs => simp [JVal.isArr] at harr
          all_goals rfl
  · intro l₁ v l₂ hv
    simp [textsLoop_eq, List.filterMap_append, List.filterMap_cons, hv]
  · intro l₁ v l₂ hv
    simp [toolsLoop_eq, List.filterMap_append, List.filterMap_cons, hv]

def c10data : List (String × JVal) :=
  [("message", .jstr "not a map"), ("session_id", .jnum "5")]

/-- C10 witness: a payload whose `message` is a string and whose
`session_id` is a number still yields defined, empty accessor results, and
a non-map noise entry in a content list is skipped by both loops. -/
theorem accessors_safe_witness :
    Event.SessionID ⟨"assistant", c10data⟩ = ""
    ∧ Event.TextContent ⟨"assistant", c10data⟩ = ""
    ∧ Event.ToolUses ⟨"assistant", c10data⟩ = []
    ∧ textsLoop [.jobj [("type", .jstr "text"), ("text", .jstr "hi")], .jstr "noise"]
        = textsLoop [.jobj [("type", .jstr "text"), ("text", .jstr "hi")]]
    ∧ toolsLoop [.jobj [("type", .jstr "tool_use")], .jbool true]
        = toolsLoop [.jobj [("type", .jstr "tool_use")]] := by
  have h := accessors_safe "assistant" c10data
  have hmsg := h.2.2.2.1 (.jstr "not a map") rfl rfl
  refine ⟨h.2.1 (.jnum "5") rfl rfl, hmsg.1, hmsg.2, ?_, ?_⟩
  · have hs := h.2.2.2.2.2.1
      [.jobj [("type", .jstr "text"), ("text", .jstr "hi")]] (.jstr "noise") [] rfl
    simpa using hs
  · have hs := h.2.2.2.2.2.2
      [.jobj [("type", .jstr "tool_use")]] (.jbool true) [] rfl
    simpa using hs

/-! ### The implicit free-text flag -/

/-- Modelled from the spec: §3 describes "an implicit free-text flag (true
when the option list is empty or explicitly marked)". The `Question` struct
of `internal/runner/runner.go` has exactly three fields — question, header,
options — so the only flag a constructed Question can carry is the one
derivable from its option list. -/
def freeTextFlag (q : Question) : Bool := q.Options.isEmpty

/-- Go `delete(m, key)` on the association-list embedding. -/
def removeKey (fields : List (String × JVal)) (key : String) :
    List (String × JVal) :=
  match fields with
  | [] => []
  | (k, v) :: rest =>
    if k = key then removeKey rest key else (k, v) :: removeKey rest key

lemma lookupJ_removeKey (fields : List (String × JVal)) (k k' : String)
    (h : k' ≠ k) : lookupJ (removeKey fields k) k' = lookupJ fields k' := by
  induction fields with
  | nil => rfl
  | cons kv rest ih =>
    obtain ⟨k0, v0⟩ := kv
    by_cases h0 : k0 = k
    · subst h0
      simp [removeKey, lookupJ, ih, Ne.symm h]
    · by_cases h1 : k0 = k'
      · subst h1
        simp [removeKey, lookupJ, h0]
      · simp [removeKey, lookupJ, h0, Ne.symm h1, ih]

def c9body : List Char :=
  "\x7b\"questions\":[\x7b\"question\":\"Pick\",\"header\":\"H\",\"options\":[\x7b\"label\":\"A\"\x7d,\x7b\"label\":\"B\"\x7d],\"freeText\":true\x7d]\x7d".data

def c9text : String := String.mk (("<!--QUESTION:".data ++ c9body) ++ "-->".data)

def c9efields : List (String × JVal) :=
  [("question", .jstr "Pick"), ("header", .jstr "H"),
   ("options", .jarr [.jobj [("label", .jstr "A")], .jobj [("label", .jstr "B")]]),
   ("freeText", .jbool true)]

def c9q : Question :=
  ⟨"Pick", "H", [[("label", .jstr "A")], [("label", .jstr "B")]]⟩

set_option maxRecDepth 8192 in
/-- C9 counterexample: a marker that explicitly marks its single question
as free-text (`"freeText": true` in the decoded element) while carrying two
options produces a Question whose option list is nonempty, and whose
implicit flag — necessarily derived from the option list, since the
`Question` struct has no other field — is `false`, although the claim
requires it to be `true` for an explicitly marked question. -/
theorem freeText_flag_counterexample :
    detectQuestions c9text = [c9q]
    ∧ decodeJson c9body = some (.jobj [("questions", .jarr [.jobj c9efields])])
    ∧ lookupJ c9efields "freeText" = some (.jbool true)
    ∧ c9q.Options ≠ []
    ∧ freeTextFlag c9q = false := by
  refine ⟨rfl, rfl, rfl, ?_, rfl⟩
  intro h
  cases h

/-- C9 (amended): every Question produced by the detector carries an
implicit free-text flag that is true exactly when its option list is
empty; an explicit `freeText` marking cannot influence the constructed
Question, because the element parse reads only the three represented
fields — removing a `freeText` entry from an element never changes its
parse. -/
theorem freeText_flag_amended (t : String) (q : Question)
    (hq : q ∈ detectQuestions t) :
    (freeTextFlag q = true ↔ q.Options = [])
    ∧ (∀ fs, parseQuestionElem (.jobj (removeKey fs "freeText"))
        = parseQuestionElem (.jobj fs)) := by
  constructor
  · cases q with
    | mk qq hh oo => cases oo <;> simp [freeTextFlag, List.isEmpty]
  · intro fs
    simp only [parseQuestionElem]
    rw [lookupJ_removeKey fs "freeText" "question" (by decide),
      lookupJ_removeKey fs "freeText" "header" (by decide),
      lookupJ_removeKey fs "freeText" "options" (by decide)]

def c9freeBody : List Char :=
  "\x7b\"questions\":[\x7b\"question\":\"Name?\",\"header\":\"H\",\"options\":[]\x7d]\x7d".data

def c9freeText : String :=
  String.mk (("<!--QUESTION:".data ++ c9freeBody) ++ "-->".data)

set_option maxRecDepth 8192 in
/-- C9 witness: a detected question with an empty option list has the
implicit flag true, and stripping `freeText` from a concrete element
leaves its parse unchanged. -/
theorem freeText_flag_amended_witness :
    freeTextFlag ⟨"Name?", "H", []⟩ = true
    ∧ parseQuestionElem (.jobj (removeKey c9efields "freeText"))
        = parseQuestionElem (.jobj c9efields) := by
  have h := freeText_flag_amended c9freeText ⟨"Name?", "H", []⟩
    (by rw [show detectQuestions c9freeText = [⟨"Name?", "H", []⟩] from rfl]
        exact List.mem_singleton_self _)
  exact ⟨h.1.mpr rfl, h.2 c9efields⟩

/-! ### The Claude CLI adapter -/

/-- The command line assembled by `run` in
`internal/runner/claude/claude.go`, translated append by append (Go's
`strings.Join(tools, ",")` is `String.intercalate ","`). -/
def claudeCmdline (opts : RunOptions) : List String :=
  let cmd := [opts.Config.Agent.Command, "-p", opts.Prompt]
  let cmd := if opts.SystemPrompt ≠ "" then
      cmd ++ ["--system-prompt", opts.SystemPrompt]
    else cmd
  let cmd := cmd ++ opts.Config.Agent.Args
  let cmd := if 0 < opts.Config.Agent.AllowedTools.length then
      cmd ++ ["--allowedTools", String.intercalate "," opts.Config.Agent.AllowedTools]
    else cmd
  let cmd := if opts.Config.Agent.DangerouslySkipPermissions then
      cmd ++ ["--dangerously-skip-permissions"]
    else cmd
  if opts.SessionID ≠ "" then cmd ++ ["--resume", opts.SessionID] else cmd

/-- The command line as the claim states it: executable name, prompt flag
with the prompt, system-prompt flag exactly when a system prompt is
supplied, the backend argument list, the comma-joined tool allow-list flag
exactly when that list is non-empty, the unsafe-skip flag exactly when
set, and the resume flag with the session identifier exactly when one is
present. -/
def specCommandLine (opts : RunOptions) : List String :=
  [opts.Config.Agent.Command, "-p", opts.Prompt]
  ++ (if opts.SystemPrompt = "" then [] else ["--system-prompt", opts.SystemPrompt])
  ++ opts.Config.Agent.Args
  ++ (if opts.Config.Agent.AllowedTools = [] then []
      else ["--allowedTools", String.intercalate "," opts.Config.Agent.AllowedTools])
  ++ (if opts.Config.Agent.DangerouslySkipPermissions
      then ["--dangerously-skip-permissions"] else [])
  ++ (if opts.SessionID = "" then [] else ["--resume", opts.SessionID])

/-- C7: for every `RunOptions`, the adapter's command line is exactly the
claim's assembly, segment by segment, with each optional segment present
exactly under the stated condition. -/
theorem claudeCmdline_spec (opts : RunOptions) :
    claudeCmdline opts = specCommandLine opts := by
  unfold claudeCmdline specCommandLine
  by_cases h1 : opts.SystemPrompt = "" <;>
    by_cases h2 : opts.Config.Agent.AllowedTools = [] <;>
      by_cases h3 : opts.Config.Agent.DangerouslySkipPermissions <;>
        by_cases h4 : opts.SessionID = "" <;>
          simp [h1, h2, h3, h4, List.length_pos, List.append_assoc]

/-- `json.Unmarshal(line, &data)` for `data : map[string]any`: accepts a
JSON object (yielding its fields) or JSON `null` (which sets the map to
nil without error in Go); everything else is a decode error. -/
def decodeObj (line : String) : Option (List (String × JVal)) :=
  match decodeJson line.data with
  | some (.jobj fs) => some fs
  | some .jnull => some []
  | _ => none

/-- One successfully decoded line becomes one Event: kind from the decoded
object's `type` field (`eventType, _ := data["type"].(string)`), payload
the full object. -/
def lineEvent (line : String) : Option Event :=
  match decodeObj line with
  | some fields =>
    some ⟨(match lookupJ fields "type" with
           | some (.jstr s) => s
           | _ => ""), fields⟩
  | none => none

/-- The scanner's maximum token size:
`scanner.Buffer(make([]byte, 1024*1024), 1024*1024)`. -/
def maxLineLen : Nat := 1024 * 1024

/-- The output-reading loop of `run` in `internal/runner/claude/claude.go`:
lines in order; a line longer than the buffer limit stops the scan
(`bufio.Scanner.Scan` returns false there, and the loop never inspects
`scanner.Err()`); empty lines are skipped; lines that fail to decode as a
JSON object are skipped; every decoded line is forwarded as one Event. -/
def scanLines : List String → List Event
  | [] => []
  | line :: rest =>
    if maxLineLen < line.length then []
    else if line = "" then scanLines rest
    else
      match lineEvent line with
      | none => scanLines rest
      | some e => e :: scanLines rest

/-- The claim's per-line description of the loop: empty lines skipped,
non-decodable lines silently skipped, each decoded line exactly one
Event, in input order. -/
def specLineEvents (lines : List String) : List Event :=
  lines.filterMap (fun line => if line = "" then none else lineEvent line)

/-- C6: whenever every line fits the per-line buffer, the reading loop
realises exactly the per-line description, in order; and every
successfully decoded line's Event takes its kind from the decoded
object's `type` field (empty when absent or not a string) and the full
decoded object as payload. -/
theorem scanLines_spec (lines : List String)
    (h : ∀ l ∈ lines, l.length ≤ maxLineLen) :
    scanLines lines = specLineEvents lines
    ∧ (∀ line fields, decodeObj line = some fields →
        lineEvent line = some ⟨(match lookupJ fields "type" with
          | some (.jstr s) => s
          | _ => ""), fields⟩) := by
  constructor
  · induction lines with
    | nil => rfl
    | cons line rest ih =>
      have hlen : ¬ (maxLineLen < line.length) :=
        not_lt.mpr (h line (by simp))
      have ih2 := ih (fun l hl => h l (by simp [hl]))
      by_cases hempty : line = ""
      · simp [scanLines, specLineEvents, hlen, hempty, ih2,
          List.filterMap_cons]
      · cases hle : lineEvent line with
        | none =>
          simp [scanLines, specLineEvents, hlen, hempty, hle, ih2,
            List.filterMap_cons]
        | some e =>
          simp [scanLines, specLineEvents, hlen, hempty, hle, ih2,
            List.filterMap_cons]
  · intro line fields hf
    unfold lineEvent
    rw [hf]

def c6lines : List String :=
  ["", "\x7b\"type\":\"system\",\"session_id\":\"abc\"\x7d", "not json",
   "\x7b\"type\":\"result\",\"result\":\"done\",\"is_error\":false\x7d"]

set_option maxRecDepth 8192 in
/-- C6 witness: an empty line and a non-JSON line are skipped while the
two decodable lines become the two events, in order. -/
theorem scanLines_spec_witness :
    scanLines c6lines
      = [⟨"system", [("type", .jstr "system"), ("session_id", .jstr "abc")]⟩,
         ⟨"result", [("type", .jstr "result"), ("result", .jstr "done"),
                     ("is_error", .jbool false)]⟩] := by
  rw [(scanLines_spec c6lines (by decide)).1]
  rfl

/-- The per-invocation world: what the subprocess and the operating system
do. `lines` is what the backend writes to stdout, already split into
lines; `pipeErr`/`startErr` are failures of `StdoutPipe`/`Start`;
`waitErr` is a nonzero exit status or other `Wait` failure. -/
structure World where
  pipeErr : Option String
  startErr : Option String
  lines : List String
  waitErr : Option String

/-- `run` from `internal/runner/claude/claude.go`: assemble the command,
set up the stdout pipe, start the process, scan its output, wait for
exit. Returns the forwarded events and the single error the function can
return, with the source's `fmt.Errorf` wrappings (debug logging is I/O
only and not modelled). -/
def runModel (opts : RunOptions) (w : World) : List Event × Option String :=
  let _cmd := claudeCmdline opts
  match w.pipeErr with
  | some m => ([], some ("creating stdout pipe: " ++ m))
  | none =>
    match w.startErr with
    | some m => ([], some ("starting claude process: " ++ m))
    | none =>
      let evs := scanLines w.lines
      match w.waitErr with
      | some m => (evs, some ("claude process exited with error: " ++ m))
      | none => (evs, none)

/-- `Claude.Run` from `internal/runner/claude/claude.go`: the goroutine
forwards `run`'s events on the event channel, sends the single error (if
any) on the error channel, and closes both; the channels' delivered
contents are therefore the event list and an at-most-one-element error
list. -/
def claudeRun (opts : RunOptions) (w : World) : List Event × List String :=
  let r := runModel opts w
  (r.1, r.2.toList)

def c5bigLine : String := String.mk (List.replicate (maxLineLen + 1) 'a')

def c5world : World := ⟨none, none, [c5bigLine], none⟩

def c5opts : RunOptions := ⟨"hi", "", ⟨⟨"claude", [], [], false⟩⟩, "", "", "plan"⟩

/-- C5 counterexample: an invocation whose only anomaly is an output line
exceeding the per-line buffer limit — a transport error in the claim's
taxonomy — together with a clean process exit yields nothing on the error
channel: `run` never inspects `scanner.Err()`, so the claimed "if and only
if" fails at this input. -/
theorem claudeRun_errors_counterexample :
    maxLineLen < c5bigLine.length ∧ (claudeRun c5opts c5world).2 = [] := by
  constructor
  · show maxLineLen < (List.replicate (maxLineLen + 1) 'a').length
    rw [List.length_replicate]
    exact Nat.lt_succ_self _
  · rfl

/-- C5 (amended): the error channel yields a value iff pipe setup failed,
the process failed to start, or waiting on the process failed (nonzero
exit or wait error); it carries at most one value and is closed after it;
a clean exit yields nothing. An output line exceeding the buffer limit
ends the scan early but reaches the error channel only through the
process exit status. -/
theorem claudeRun_errors (opts : RunOptions) (w : World) :
    ((claudeRun opts w).2 ≠ []
      ↔ (w.pipeErr.isSome ∨ w.startErr.isSome ∨ w.waitErr.isSome))
    ∧ (claudeRun opts w).2.length ≤ 1 := by
  unfold claudeRun runModel
  rcases w with ⟨pe, se, ls, we⟩
  cases pe <;> cases se <;> cases we <;> simp

/-! ### Runner registry -/

/-- `Runner` from `internal/runner/runner.go`: the single capability every
backend adapter implements. -/
structure Runner where
  run : RunOptions → World → List Event × List String

/-- The Claude adapter as a `Runner` (`claude.New()`; `Claude.Run`). In Go
this is a non-nil interface value; in the embedding a `Runner` value
always exists. -/
def claudeRunner : Runner := ⟨claudeRun⟩

/-- The process-wide registry `map[string]func() Runner` from
`internal/runner/registry.go`, as an association list with unique keys. -/
abbrev Registry := List (String × (Unit → Runner))

/-- `Register` from `internal/runner/registry.go`: map assignment,
overwriting any prior registration for the name. -/
def Register (reg : Registry) (name : String) (ctor : Unit → Runner) :
    Registry :=
  match reg with
  | [] => [(name, ctor)]
  | (k, c) :: rest =>
    if k = name then (k, ctor) :: rest else (k, c) :: Register rest name ctor

/-- Registry lookup (`registry[cfg.Agent.Command]`). -/
def lookupReg (reg : Registry) (name : String) : Option (Unit → Runner) :=
  match reg with
  | [] => none
  | (k, c) :: rest => if k = name then some c else lookupReg rest name

/-- Insertion into an ascending list. Go's `sort.Strings` sorts the key
slice ascending; a sorted permutation of strings is unique as a list, so
this insertion sort computes exactly its output. -/
def insertSorted (x : String) : List String → List String
  | [] => [x]
  | y :: ys => if x ≤ y then x :: y :: ys else y :: insertSorted x ys

def sortStrings : List String → List String
  | [] => []
  | x :: xs => insertSorted x (sortStrings xs)

lemma insertSorted_perm (x : String) (l : List String) :
    (insertSorted x l).Perm (x :: l) := by
  induction l with
  | nil => exact List.Perm.refl _
  | cons y ys ih =>
    unfold insertSorted
    by_cases h : x ≤ y
    · rw [if_pos h]
    · rw [if_neg h]
      exact (ih.cons y).trans (List.Perm.swap x y ys)

lemma insertSorted_sorted (x : String) (l : List String)
    (h : l.Sorted (· ≤ ·)) : (insertSorted x l).Sorted (· ≤ ·) := by
  induction l with
  | nil => simp [insertSorted]
  | cons y ys ih =>
    rw [List.sorted_cons] at h
    unfold insertSorted
    by_cases hxy : x ≤ y
    · rw [if_pos hxy, List.sorted_cons]
      refine ⟨?_, List.sorted_cons.mpr h⟩
      intro b hb
      rcases List.mem_cons.mp hb with rfl | hb'
      · exact hxy
      · exact hxy.trans (h.1 b hb')
    · rw [if_neg hxy, List.sorted_cons]
      constructor
      · intro b hb
        rcases List.mem_cons.mp ((insertSorted_perm x ys).subset hb)
          with rfl | hb'
        · exact le_of_not_le hxy
        · exact h.1 b hb'
      · exact ih h.2

lemma sortStrings_sorted (l : List String) :
    (sortStrings l).Sorted (· ≤ ·) := by
  induction l with
  | nil => simp [sortStrings]
  | cons x xs ih => exact insertSorted_sorted x (sortStrings xs) ih

lemma sortStrings_perm (l : List String) : (sortStrings l).Perm l := by
  induction l with
  | nil => exact List.Perm.refl _
  | cons x xs ih =>
    exact (insertSorted_perm x (sortStrings xs)).trans (ih.cons x)

/-- `registeredNames` from `internal/runner/registry.go`: the key slice,
sorted ascending. -/
def registeredNames (reg : Registry) : List String :=
  sortStrings (reg.map Prod.fst)

/-- Go `fmt.Sprintf("%q", s)` for names without escape-needing
characters. -/
def goQuote (s : String) : String := "\"" ++ s ++ "\""

/-- Go `fmt.Sprintf("%v", names)` for a string slice. -/
def goSlice (names : List String) : String :=
  "[" ++ String.intercalate " " names ++ "]"

/-- The miss message of `NewRunner`:
`fmt.Errorf("unsupported runner: %q (available: %v)", …)`. -/
def unsupportedMsg (name : String) (names : List String) : String :=
  "unsupported runner: " ++ goQuote name ++ " (available: " ++ goSlice names ++ ")"

/-- `NewRunner` from `internal/runner/registry.go`. -/
def NewRunner (reg : Registry) (cfg : Config) : Except String Runner :=
  match lookupReg reg cfg.Agent.Command with
  | some ctor => .ok (ctor ())
  | none => .error (unsupportedMsg cfg.Agent.Command (registeredNames reg))

/-- Substring containment, on the underlying character lists. -/
def substrOf (needle hay : String) : Prop := needle.data <:+: hay.data

/-- C8: for a registered command name, `NewRunner` returns the runner made
by the registered constructor; for an unregistered name it fails — purely
and synchronously, no process is involved — with an "unsupported runner"
message that contains the requested name, the phrase `unsupported runner`,
and the registered names joined in sorted order (sorted, and a permutation
of the registry's keys). -/
theorem newRunner_spec (reg : Registry) (cfg : Config) :
    (∀ ctor, lookupReg reg cfg.Agent.Command = some ctor →
        NewRunner reg cfg = .ok (ctor ()))
    ∧ (lookupReg reg cfg.Agent.Command = none →
        NewRunner reg cfg
            = .error (unsupportedMsg cfg.Agent.Command (registeredNames reg))
        ∧ substrOf "unsupported runner"
            (unsupportedMsg cfg.Agent.Command (registeredNames reg))
        ∧ substrOf cfg.Agent.Command
            (unsupportedMsg cfg.Agent.Command (registeredNames reg))
        ∧ substrOf (String.intercalate " " (registeredNames reg))
            (unsupportedMsg cfg.Agent.Command (registeredNames reg))
        ∧ (registeredNames reg).Sorted (· ≤ ·)
        ∧ (registeredNames reg).Perm (reg.map Prod.fst)) := by
  constructor
  · intro ctor h
    unfold NewRunner
    rw [h]
  · intro h
    refine ⟨?_, ?_, ?_, ?_, sortStrings_sorted _, sortStrings_perm _⟩
    · unfold NewRunner
      rw [h]
    · show ("unsupported runner" : String).data
          <:+: (unsupportedMsg cfg.Agent.Command (registeredNames reg)).data
      refine ⟨[], ": ".data ++ ("\"".data ++ (cfg.Agent.Command.data
        ++ ("\"".data ++ (" (available: ".data ++ ("[".data
        ++ ((String.intercalate " " (registeredNames reg)).data
        ++ ("]".data ++ ")".data))))))), ?_⟩
      simp [unsupportedMsg, goQuote, goSlice, String.data_append,
        List.append_assoc,
        show "unsupported runner: ".data
          = "unsupported runner".data ++ ": ".data from rfl]
    · show cfg.Agent.Command.data
          <:+: (unsupportedMsg cfg.Agent.Command (registeredNames reg)).data
      refine ⟨"unsupported runner: ".data ++ "\"".data,
        "\"".data ++ (" (available: ".data ++ ("[".data
        ++ ((String.intercalate " " (registeredNames reg)).data
        ++ ("]".data ++ ")".data)))), ?_⟩
      simp [unsupportedMsg, goQuote, goSlice, String.data_append,
        List.append_assoc]
    · show (String.intercalate " " (registeredNames reg)).data
          <:+: (unsupportedMsg cfg.Agent.Command (registeredNames reg)).data
      refine ⟨"unsupported runner: ".data ++ ("\"".data
        ++ (cfg.Agent.Command.data ++ ("\"".data
        ++ (" (available: ".data ++ "[".data)))),
        "]".data ++ ")".data, ?_⟩
      simp [unsupportedMsg, goQuote, goSlice, String.data_append,
        List.append_assoc]

def c8registry : Registry := Register [] "claude" (fun _ => claudeRunner)

def c8cfgHit : Config := ⟨⟨"claude", ["--output-format", "stream-json"], [], false⟩⟩

def c8cfgMiss : Config := ⟨⟨"unknown-agent", [], [], false⟩⟩

/-- C8 witness: with only the Claude adapter registered, the configured
name `claude` yields that runner, and the name `unknown-agent` yields the
descriptive failure with the sorted known-name list. -/
theorem newRunner_spec_witness :
    NewRunner c8registry c8cfgHit = .ok claudeRunner
    ∧ NewRunner c8registry c8cfgMiss
        = .error "unsupported runner: \"unknown-agent\" (available: [claude])"
    ∧ substrOf "unknown-agent"
        "unsupported runner: \"unknown-agent\" (available: [claude])" := by
  have h1 := (newRunner_spec c8registry c8cfgHit).1 (fun _ => claudeRunner) rfl
  have h2 := (newRunner_spec c8registry c8cfgMiss).2 rfl
  exact ⟨h1, h2.1, h2.2.2.1⟩

end Spektacular
